import Mathlib

/-!
Verification development for the Palioxis data-destruction agent.

Shallow embedding of the parts of the code the claims are about:
  * the DPoP verifier of `palioxis_server.py` (`verify_dpop_proof`), over a
    concrete model of RSA public keys, their DER SubjectPublicKeyInfo
    serialisation and its PEM (base64) wrapping;
  * the destroyer modules of `destroyers.py` (`FastDestroyer.destroy_file`,
    `BaseDestroyer.destroy_dir`, `BaseDestroyer.destroy_paths`,
    `get_destroyer`) over a small filesystem model with symbolic links;
  * the connection handler / self-destruct sequence of `palioxis_server.py`
    as an event trace;
  * the typed configuration accessors of `config_manager.py`;
  * the fleet dispatcher of `palioxis_client.py`.

Machine integers do not occur; Python integers are unbounded and are modelled
by `Nat`/`Int`. Byte strings are `List Nat` with elements below 256.
-/

/-! ## Bytes, base64 and PEM

`cryptography`'s `public_bytes(Encoding.PEM, PublicFormat.SubjectPublicKeyInfo)`
produces the DER SubjectPublicKeyInfo wrapped in base64 between fixed
BEGIN/END marker lines.  The model below implements standard base64 over byte
lists; the 64-column line wrapping of the real PEM writer is omitted (it
inserts newlines deterministically, so it neither creates nor destroys
byte-equalities between two PEM encodings). -/

/-- The base64 alphabet, as ASCII codes: value `s < 64` to its character. -/
def b64char (s : Nat) : Nat :=
  if s < 26 then 65 + s
  else if s < 52 then 71 + s
  else if s < 62 then s - 4
  else if s = 62 then 43
  else 47

/-- Inverse of `b64char` on the alphabet. -/
def b64val (c : Nat) : Nat :=
  if c = 43 then 62
  else if c = 47 then 63
  else if c < 58 then c + 4
  else if c < 91 then c - 65
  else c - 71

/-- Base64 of a byte list, three bytes to four characters, `'='` (61) padding. -/
def b64encode : List Nat → List Nat
  | [] => []
  | [a] => [b64char (a / 4), b64char (a % 4 * 16), 61, 61]
  | [a, b] => [b64char (a / 4), b64char (a % 4 * 16 + b / 16), b64char (b % 16 * 4), 61]
  | a :: b :: c :: rest =>
      b64char (a / 4) :: b64char (a % 4 * 16 + b / 16) ::
      b64char (b % 16 * 4 + c / 64) :: b64char (c % 64) :: b64encode rest

/-- Base64 decoding, the left inverse of `b64encode` on byte lists. -/
def b64decode : List Nat → List Nat
  | c1 :: c2 :: c3 :: c4 :: rest =>
      if c3 = 61 then [b64val c1 * 4 + b64val c2 / 16]
      else if c4 = 61 then
        [b64val c1 * 4 + b64val c2 / 16, b64val c2 % 16 * 16 + b64val c3 / 4]
      else
        (b64val c1 * 4 + b64val c2 / 16) :: (b64val c2 % 16 * 16 + b64val c3 / 4) ::
        (b64val c3 % 4 * 64 + b64val c4) :: b64decode rest
  | _ => []

theorem b64val_b64char : ∀ s < 64, b64val (b64char s) = s := by decide

theorem b64char_ne_pad : ∀ s < 64, b64char s ≠ 61 := by decide

theorem b64decode_b64encode :
    ∀ l : List Nat, (∀ x ∈ l, x < 256) → b64decode (b64encode l) = l
  | [], _ => rfl
  | [a], h => by
      have ha : a < 256 := h a (by simp)
      have h1 : b64val (b64char (a / 4)) = a / 4 := b64val_b64char _ (by omega)
      have h2 : b64val (b64char (a % 4 * 16)) = a % 4 * 16 := b64val_b64char _ (by omega)
      simp only [b64encode, b64decode, if_true]
      rw [h1, h2]
      have hv : a / 4 * 4 + a % 4 * 16 / 16 = a := by omega
      rw [hv]
  | [a, b], h => by
      have ha : a < 256 := h a (by simp)
      have hb : b < 256 := h b (by simp)
      have h1 : b64val (b64char (a / 4)) = a / 4 := b64val_b64char _ (by omega)
      have h2 : b64val (b64char (a % 4 * 16 + b / 16)) = a % 4 * 16 + b / 16 :=
        b64val_b64char _ (by omega)
      have h3 : b64val (b64char (b % 16 * 4)) = b % 16 * 4 := b64val_b64char _ (by omega)
      have hne : b64char (b % 16 * 4) ≠ 61 := b64char_ne_pad _ (by omega)
      simp only [b64encode, b64decode]
      rw [if_neg hne, if_true, h1, h2, h3]
      have hv1 : a / 4 * 4 + (a % 4 * 16 + b / 16) / 16 = a := by omega
      have hv2 : (a % 4 * 16 + b / 16) % 16 * 16 + b % 16 * 4 / 4 = b := by omega
      rw [hv1, hv2]
  | a :: b :: c :: rest, h => by
      have ha : a < 256 := h a (by simp)
      have hb : b < 256 := h b (by simp)
      have hc : c < 256 := h c (by simp)
      have h1 : b64val (b64char (a / 4)) = a / 4 := b64val_b64char _ (by omega)
      have h2 : b64val (b64char (a % 4 * 16 + b / 16)) = a % 4 * 16 + b / 16 :=
        b64val_b64char _ (by omega)
      have h3 : b64val (b64char (b % 16 * 4 + c / 64)) = b % 16 * 4 + c / 64 :=
        b64val_b64char _ (by omega)
      have h4 : b64val (b64char (c % 64)) = c % 64 := b64val_b64char _ (by omega)
      have hne3 : b64char (b % 16 * 4 + c / 64) ≠ 61 := b64char_ne_pad _ (by omega)
      have hne4 : b64char (c % 64) ≠ 61 := b64char_ne_pad _ (by omega)
      have ih := b64decode_b64encode rest (fun x hx => h x (by simp [hx]))
      match rest with
      | [] =>
        simp only [b64encode, b64decode]
        rw [if_neg hne3, if_neg hne4, h1, h2, h3, h4]
        have hv1 : a / 4 * 4 + (a % 4 * 16 + b / 16) / 16 = a := by omega
        have hv2 : (a % 4 * 16 + b / 16) % 16 * 16 + (b % 16 * 4 + c / 64) / 4 = b := by omega
        have hv3 : (b % 16 * 4 + c / 64) % 4 * 64 + c % 64 = c := by omega
        rw [hv1, hv2, hv3]
      | r :: rs =>
        simp only [b64encode, b64decode] at ih ⊢
        rw [if_neg hne3, if_neg hne4, h1, h2, h3, h4]
        have hv1 : a / 4 * 4 + (a % 4 * 16 + b / 16) / 16 = a := by omega
        have hv2 : (a % 4 * 16 + b / 16) % 16 * 16 + (b % 16 * 4 + c / 64) / 4 = b := by omega
        have hv3 : (b % 16 * 4 + c / 64) % 4 * 64 + c % 64 = c := by omega
        rw [hv1, hv2, hv3, ih]

theorem b64encode_inj {l1 l2 : List Nat} (h1 : ∀ x ∈ l1, x < 256)
    (h2 : ∀ x ∈ l2, x < 256) (h : b64encode l1 = b64encode l2) : l1 = l2 := by
  have := congrArg b64decode h
  rwa [b64decode_b64encode l1 h1, b64decode_b64encode l2 h2] at this

/-! ## DER SubjectPublicKeyInfo of an RSA public key

An RSA public key is its pair of public numbers `(n, e)`; `spkiDer` is its
DER SubjectPublicKeyInfo (SEQUENCE of the rsaEncryption AlgorithmIdentifier
and a BIT STRING holding the RSAPublicKey SEQUENCE of the two INTEGERs).
Length fields beyond two length bytes are truncated mod 256; this keeps every
emitted byte below 256 and does not affect any question of equality of
encodings. -/

/-- Big-endian base-256 digits, with structural fuel (`natBytes` supplies
fuel `n`, always enough since the digit count is at most `n`). -/
def natBytesGo : Nat → Nat → List Nat
  | 0, _ => []
  | fuel + 1, n => if n = 0 then [] else natBytesGo fuel (n / 256) ++ [n % 256]

/-- Big-endian base-256 digits of `n` (empty for 0). -/
def natBytes (n : Nat) : List Nat := natBytesGo n n

theorem natBytesGo_lt : ∀ (fuel n : Nat), ∀ x ∈ natBytesGo fuel n, x < 256
  | 0, _ => by simp [natBytesGo]
  | fuel + 1, n => by
      intro x hx
      unfold natBytesGo at hx
      by_cases hn : n = 0
      · rw [if_pos hn] at hx; simp at hx
      · rw [if_neg hn] at hx
        rcases List.mem_append.mp hx with h | h
        · exact natBytesGo_lt fuel (n / 256) x h
        · rw [List.mem_singleton] at h; omega

theorem natBytes_lt (n : Nat) : ∀ x ∈ natBytes n, x < 256 := natBytesGo_lt n n

/-- DER length field. -/
def derLen (n : Nat) : List Nat :=
  if n < 128 then [n] else if n < 256 then [129, n] else [130, n / 256 % 256, n % 256]

/-- DER INTEGER encoding of a nonnegative integer. -/
def derInt (m : Nat) : List Nat :=
  let bs := if m = 0 then [0] else natBytes m
  let bs2 := if 128 ≤ bs.headD 0 then 0 :: bs else bs
  2 :: derLen bs2.length ++ bs2

/-- AlgorithmIdentifier for rsaEncryption with NULL parameters. -/
def algIdRsa : List Nat := [48, 13, 6, 9, 42, 134, 72, 134, 247, 13, 1, 1, 1, 5, 0]

/-- An RSA public key by its public numbers. -/
structure Key where
  n : Nat
  e : Nat
deriving DecidableEq

/-- DER SubjectPublicKeyInfo of the key. -/
def spkiDer (k : Key) : List Nat :=
  let rsaSeq := derInt k.n ++ derInt k.e
  let rsaKey := 48 :: derLen rsaSeq.length ++ rsaSeq
  let bitStr := 3 :: derLen (rsaKey.length + 1) ++ (0 :: rsaKey)
  48 :: derLen (algIdRsa.length + bitStr.length) ++ (algIdRsa ++ bitStr)

theorem derLen_lt (n : Nat) : ∀ x ∈ derLen n, x < 256 := by
  intro x hx
  unfold derLen at hx
  by_cases h1 : n < 128
  · rw [if_pos h1, List.mem_singleton] at hx; omega
  · rw [if_neg h1] at hx
    by_cases h2 : n < 256
    · rw [if_pos h2] at hx
      rcases List.mem_cons.mp hx with h | h
      · omega
      · rw [List.mem_singleton] at h; omega
    · rw [if_neg h2] at hx
      rcases List.mem_cons.mp hx with h | h
      · omega
      · rcases List.mem_cons.mp h with h3 | h3
        · omega
        · rw [List.mem_singleton] at h3; omega

theorem forall_lt_cons_append {a : Nat} {l1 l2 : List Nat}
    (ha : a < 256) (h1 : ∀ x ∈ l1, x < 256) (h2 : ∀ x ∈ l2, x < 256) :
    ∀ x ∈ a :: l1 ++ l2, x < 256 := by
  intro x hx
  rcases List.mem_cons.mp hx with h | h
  · omega
  · rcases List.mem_append.mp h with h | h
    · exact h1 x h
    · exact h2 x h

theorem derInt_lt (m : Nat) : ∀ x ∈ derInt m, x < 256 := by
  have hbs : ∀ x ∈ (if m = 0 then [0] else natBytes m), x < 256 := by
    by_cases hm : m = 0
    · rw [if_pos hm]; intro x hx; rw [List.mem_singleton] at hx; omega
    · rw [if_neg hm]; exact natBytes_lt m
  have hbs2 : ∀ x ∈ (if 128 ≤ (if m = 0 then [0] else natBytes m).headD 0
      then 0 :: (if m = 0 then [0] else natBytes m)
      else (if m = 0 then [0] else natBytes m)), x < 256 := by
    by_cases hh : 128 ≤ (if m = 0 then [0] else natBytes m).headD 0
    · rw [if_pos hh]
      intro x hx
      rcases List.mem_cons.mp hx with h | h
      · omega
      · exact hbs x h
    · rw [if_neg hh]; exact hbs
  simp only [derInt]
  exact forall_lt_cons_append (by omega) (derLen_lt _) hbs2

theorem spkiDer_lt (k : Key) : ∀ x ∈ spkiDer k, x < 256 := by
  have halg : ∀ x ∈ algIdRsa, x < 256 := by decide
  have hseq : ∀ x ∈ derInt k.n ++ derInt k.e, x < 256 := by
    intro x hx
    rcases List.mem_append.mp hx with h | h
    · exact derInt_lt _ x h
    · exact derInt_lt _ x h
  have hkey : ∀ x ∈ (48 : Nat) :: derLen (derInt k.n ++ derInt k.e).length ++
      (derInt k.n ++ derInt k.e), x < 256 :=
    forall_lt_cons_append (by omega) (derLen_lt _) hseq
  simp only [spkiDer]
  refine forall_lt_cons_append (by omega) (derLen_lt _) ?_
  intro x hx
  rcases List.mem_append.mp hx with h | h
  · exact halg x h
  · refine forall_lt_cons_append (by omega) (derLen_lt _) ?_ x h
    intro y hy
    rcases List.mem_cons.mp hy with h2 | h2
    · omega
    · exact hkey y h2

/-- Bytes of an ASCII string. -/
def strBytes (s : String) : List Nat := s.toList.map Char.toNat

/-- Models the library's PEM serialisation of a public key: the DER
SubjectPublicKeyInfo in base64 between the fixed marker lines (line wrapping
omitted, see above). This is what `verify_dpop_proof` byte-compares. -/
def pem_spki (k : Key) : List Nat :=
  strBytes "-----BEGIN PUBLIC KEY-----\n" ++ b64encode (spkiDer k) ++
  strBytes "\n-----END PUBLIC KEY-----\n"

theorem pem_spki_inj {k1 k2 : Key} (h : pem_spki k1 = pem_spki k2) :
    spkiDer k1 = spkiDer k2 := by
  unfold pem_spki at h
  rw [List.append_assoc, List.append_assoc] at h
  have h2 := List.append_cancel_left h
  have h3 := List.append_cancel_right h2
  exact b64encode_inj (spkiDer_lt k1) (spkiDer_lt k2) h3

/-! ## The DPoP verifier

`PalioxisServer.verify_dpop_proof` of `palioxis_server.py`. A token is the
structured content of the compact JWT: header fields (`alg`, `typ`, the
embedded `jwk`, which `jwt.algorithms.RSAAlgorithm.from_jwk` materialises
into a public key, here the key itself), payload claims, and `sigOk`, the
outcome of `jwt.decode`'s signature verification of the token under its own
embedded key — the one cryptographic step the embedding keeps abstract.
`none` stands for a missing or unparseable token (the code returns `False`
for a falsy token and catches every parse exception). `now` is the value of
`time.time()` at the check. -/

structure DpopToken where
  alg : String
  typ : String
  jwk : Key
  htm : String
  htu : String
  iat : Int
  jti : String
  sigOk : Bool
deriving DecidableEq

/-- The verifier: compare the PEM of the mTLS peer key with the PEM of the
`jwk`-derived key; verify the signature; then the `htm`, `htu` and `iat`
assertions (an assertion failure raises, is caught, and yields `false`).
The freshness check is the code's `time.time() - decoded_token['iat'] < 300`. -/
def verify_dpop_proof (token : Option DpopToken) (clientKey : Key)
    (httpMethod httpUrl : String) (now : Int) : Bool :=
  match token with
  | none => false
  | some t =>
    if pem_spki clientKey ≠ pem_spki t.jwk then false
    else if !t.sigOk then false
    else if t.htm ≠ httpMethod then false
    else if t.htu ≠ httpUrl then false
    else decide (now - t.iat < 300)

/-- C1: a token is accepted only when the `jwk`-derived key has the same DER
SubjectPublicKeyInfo as the verified mTLS client certificate key, and any
token whose `jwk`-derived key differs in that encoding is rejected. -/
theorem C1_dpop_key_binding :
    ∀ (t : DpopToken) (clientKey : Key) (m u : String) (now : Int),
      (verify_dpop_proof (some t) clientKey m u now = true →
        spkiDer t.jwk = spkiDer clientKey)
      ∧ (spkiDer t.jwk ≠ spkiDer clientKey →
        verify_dpop_proof (some t) clientKey m u now = false) := by
  intro t clientKey m u now
  constructor
  · intro h
    by_cases hp : pem_spki clientKey = pem_spki t.jwk
    · exact (pem_spki_inj hp).symm
    · exfalso
      simp only [verify_dpop_proof] at h
      rw [if_pos hp] at h
      exact Bool.false_ne_true h
  · intro hne
    have hp : pem_spki clientKey ≠ pem_spki t.jwk := by
      intro h
      exact hne (pem_spki_inj h).symm
    simp only [verify_dpop_proof]
    rw [if_pos hp]

/-- C2 counterexample input: a well-formed proof whose `iat` lies 400 seconds
in the future of `now = 1000`. -/
def futureTok : DpopToken :=
  { alg := "RS256", typ := "dpop+jwt", jwk := ⟨3233, 17⟩, htm := "POST"
    htu := "https://h:8443/destroy", iat := 1400, jti := "j1", sigOk := true }

/-- C2 counterexample: the claim says a proof whose `iat` lies more than 300
seconds in the future is rejected; the code accepts this token with
`iat = now + 400` (the check `now - iat < 300` has no lower bound). -/
theorem C2_counterexample :
    verify_dpop_proof (some futureTok) ⟨3233, 17⟩ "POST" "https://h:8443/destroy" 1000
      = true ∧ futureTok.iat = 1000 + 400 := by
  constructor
  · decide
  · decide

/-- C2 amended: `verify_dpop_proof` accepts only when `now - iat < 300` —
a proof with `iat = now - 400` is rejected — but the window is one-sided:
there is no rejection of future-dated `iat` (see the counterexample). -/
theorem C2_iat_window :
    ∀ (t : DpopToken) (clientKey : Key) (m u : String) (now : Int),
      (verify_dpop_proof (some t) clientKey m u now = true → now - t.iat < 300)
      ∧ (300 ≤ now - t.iat →
        verify_dpop_proof (some t) clientKey m u now = false) := by
  intro t clientKey m u now
  simp only [verify_dpop_proof]
  constructor
  · intro h
    split_ifs at h
    · simpa using h
  · intro hge
    split_ifs <;> simp_all

/-! ## Typed configuration accessors

`ConfigManager.get_int` / `get_bool` / `get_float` of `config_manager.py`.
The loaded `configparser` state is abstracted to a lookup function `store`
from section and option to the stored string; `none` stands for the
`NoSectionError`/`NoOptionError` cases.  `configparser.getint` applies
Python's `int()` to the stored string, `getboolean` matches against its
`BOOLEAN_STATES` table, `getfloat` applies `float()`; a failed conversion
raises `ValueError`, which the accessor catches, returning the caller's
default.  The conversion functions are modelled below (`int()`'s digit
grouping underscores and `float()`'s `inf`/`nan` forms are outside the
numeric model). -/

/-- Python `str.strip()` (ASCII whitespace), character by character. -/
def pyStrip (s : String) : String :=
  ⟨((s.data.dropWhile Char.isWhitespace).reverse.dropWhile
      Char.isWhitespace).reverse⟩

/-- Value of a nonempty all-digit character list. -/
def digitsVal (cs : List Char) : Nat :=
  cs.foldl (fun a c => a * 10 + (c.toNat - 48)) 0

/-- Digit-list parse: all characters are digits and there is at least one. -/
def parseDigitsNat (cs : List Char) : Option Nat :=
  if cs.isEmpty then none
  else if cs.all Char.isDigit then some (digitsVal cs) else none

/-- Signed integer parse over characters. -/
def parseIntChars : List Char → Option Int
  | '+' :: rest => (parseDigitsNat rest).map (fun n => (n : Int))
  | '-' :: rest => (parseDigitsNat rest).map (fun n => -(n : Int))
  | cs => (parseDigitsNat cs).map (fun n => (n : Int))

/-- Python `int(str)`: strip whitespace, optional sign, decimal digits. -/
def pyParseInt (s : String) : Option Int :=
  parseIntChars (pyStrip s).data

/-- `configparser`'s boolean table: the lowercased value must be one of
`1 yes true on` (true) or `0 no false off` (false). -/
def pyParseBool (s : String) : Option Bool :=
  let t := s.toLower
  if t = "1" ∨ t = "yes" ∨ t = "true" ∨ t = "on" then some true
  else if t = "0" ∨ t = "no" ∨ t = "false" ∨ t = "off" then some false
  else none

/-- Split a character list at the first exponent marker. -/
def splitOnExp : List Char → List Char × Option (List Char)
  | [] => ([], none)
  | c :: rest =>
      if c = 'e' ∨ c = 'E' then ([], some rest)
      else
        let p := splitOnExp rest
        (c :: p.1, p.2)

/-- Unsigned decimal mantissa: digits with at most one point, at least one
digit overall. -/
def parseMantissa (cs : List Char) : Option ℚ :=
  let p := cs.span Char.isDigit
  match p.2 with
  | [] => if p.1.isEmpty then none else some ((digitsVal p.1 : ℚ))
  | '.' :: fs =>
      if fs.all Char.isDigit && (!p.1.isEmpty || !fs.isEmpty) then
        some ((digitsVal p.1 : ℚ) + (digitsVal fs : ℚ) / (10 : ℚ) ^ fs.length)
      else none
  | _ => none

/-- Python `float(str)` on ordinary decimal literals, valued in `ℚ`. -/
def pyParseFloat (s : String) : Option ℚ :=
  let body := fun (cs : List Char) =>
    let p := splitOnExp cs
    match p.2 with
    | none => parseMantissa p.1
    | some ecs =>
        match parseMantissa p.1, parseIntChars ecs with
        | some q, some ex => some (q * (10 : ℚ) ^ ex)
        | _, _ => none
  match (pyStrip s).data with
  | '+' :: rest => body rest
  | '-' :: rest => (body rest).map Neg.neg
  | cs => body cs

/-- `ConfigManager.get_int`: stored value through `int()`, the default on a
missing section/option or a `ValueError`. -/
def get_int (store : String → String → Option String) (sect opt : String)
    (default : Int) : Int :=
  match store sect opt with
  | none => default
  | some v =>
    match pyParseInt v with
    | none => default
    | some n => n

/-- `ConfigManager.get_bool`. -/
def get_bool (store : String → String → Option String) (sect opt : String)
    (default : Bool) : Bool :=
  match store sect opt with
  | none => default
  | some v =>
    match pyParseBool v with
    | none => default
    | some b => b

/-- `ConfigManager.get_float`. -/
def get_float (store : String → String → Option String) (sect opt : String)
    (default : ℚ) : ℚ :=
  match store sect opt with
  | none => default
  | some v =>
    match pyParseFloat v with
    | none => default
    | some q => q

/-- C9: the typed accessors return the caller-supplied default both when the
section/option is missing and when the stored value exists but fails the
requested conversion. -/
theorem C9_typed_accessor_defaults :
    ∀ (store : String → String → Option String) (sect opt : String)
      (dI : Int) (dB : Bool) (dF : ℚ),
      (store sect opt = none →
        get_int store sect opt dI = dI ∧ get_bool store sect opt dB = dB ∧
        get_float store sect opt dF = dF)
      ∧ (∀ v, store sect opt = some v → pyParseInt v = none →
          get_int store sect opt dI = dI)
      ∧ (∀ v, store sect opt = some v → pyParseBool v = none →
          get_bool store sect opt dB = dB)
      ∧ (∀ v, store sect opt = some v → pyParseFloat v = none →
          get_float store sect opt dF = dF) := by
  intro store sect opt dI dB dF
  refine ⟨?_, ?_, ?_, ?_⟩
  · intro h
    refine ⟨?_, ?_, ?_⟩ <;> simp [get_int, get_bool, get_float, h]
  · intro v hv hp
    simp [get_int, hv, hp]
  · intro v hv hp
    simp [get_bool, hv, hp]
  · intro v hv hp
    simp [get_float, hv, hp]

/-! ## The destroyer factory

`get_destroyer` of `destroyers.py`.  The four registered destroyer classes
are a tagged kind plus their pass count (`ShredDestroyer` reads
`shred_passes`, default 9; `FastDestroyer` reads `fast_passes`, default 3;
the wipe and Windows destroyers have no pass setting).  The `config` dict is
modelled by its two relevant entries.  `platform.system()` is the
`platformSystem` argument.  The final dictionary indexing
`destroyers[module_name.lower()]` would raise `KeyError` on a missing key,
hence the `Option` result; totality is what C7 proves. -/

inductive DKind where
  | shred
  | fast
  | wipe
  | windows
deriving DecidableEq

structure Destroyer where
  kind : DKind
  passes : Option Nat
deriving DecidableEq

structure DCfg where
  fast_passes : Option Nat
  shred_passes : Option Nat

/-- Python `str.lower()` (ASCII part), character by character. -/
def pyLower (s : String) : String :=
  ⟨s.data.map Char.toLower⟩

/-- Association lookup in the factory's registry. -/
def tblLookup : List (String × DKind) → String → Option DKind
  | [], _ => none
  | (k, v) :: rest, s => if s = k then some v else tblLookup rest s

/-- The `destroyers` dict of `get_destroyer`. -/
def destroyerTable : List (String × DKind) :=
  [("shred", .shred), ("fast", .fast), ("wipe", .wipe), ("windows", .windows)]

/-- Constructing the selected class with the given config. -/
def mkDestroyer : DKind → DCfg → Destroyer
  | .shred, cfg => ⟨.shred, some (cfg.shred_passes.getD 9)⟩
  | .fast, cfg => ⟨.fast, some (cfg.fast_passes.getD 3)⟩
  | .wipe, _ => ⟨.wipe, none⟩
  | .windows, _ => ⟨.windows, none⟩

/-- `get_destroyer(module_name, config)`: unknown names fall back to
`'fast'`; on Windows, `'shred'`/`'wipe'` are replaced by `'windows'`; then
the registry is indexed. -/
def get_destroyer (moduleName platformSystem : String) (cfg : DCfg) :
    Option Destroyer :=
  let m1 := match tblLookup destroyerTable (pyLower moduleName) with
            | none => "fast"
            | some _ => moduleName
  let m2 := if platformSystem = "Windows" ∧
               (pyLower m1 = "shred" ∨ pyLower m1 = "wipe") then "windows"
            else m1
  (tblLookup destroyerTable (pyLower m2)).map (fun k => mkDestroyer k cfg)

/-- C7: the factory is total — it returns a destroyer for every module name;
an unrecognised name falls back to the fast destroyer with `fast_passes`
defaulting to 3; on Windows a request for shred or wipe is substituted by
the Windows destroyer. -/
theorem C7_get_destroyer_total :
    ∀ (name platform : String) (cfg : DCfg),
      ((get_destroyer name platform cfg).isSome = true)
      ∧ (tblLookup destroyerTable (pyLower name) = none →
          get_destroyer name platform cfg = some ⟨.fast, some (cfg.fast_passes.getD 3)⟩)
      ∧ (tblLookup destroyerTable (pyLower name) = none → cfg.fast_passes = none →
          get_destroyer name platform cfg = some ⟨.fast, some 3⟩)
      ∧ (platform = "Windows" → pyLower name = "shred" ∨ pyLower name = "wipe" →
          get_destroyer name platform cfg = some ⟨.windows, none⟩) := by
  intro name platform cfg
  have efast : pyLower "fast" = "fast" := by decide
  have ewin : pyLower "windows" = "windows" := by decide
  have lfast : tblLookup destroyerTable "fast" = some DKind.fast := by decide
  have lwin : tblLookup destroyerTable "windows" = some DKind.windows := by decide
  have nfast : ¬(platform = "Windows" ∧
      (("fast" : String) = "shred" ∨ ("fast" : String) = "wipe")) := by
    rintro ⟨-, h | h⟩ <;> simp at h
  have hnone : tblLookup destroyerTable (pyLower name) = none →
      get_destroyer name platform cfg = some ⟨.fast, some (cfg.fast_passes.getD 3)⟩ := by
    intro hl
    simp only [get_destroyer, hl, efast]
    rw [if_neg nfast]
    rfl
  refine ⟨?_, hnone, ?_, ?_⟩
  · cases hl : tblLookup destroyerTable (pyLower name) with
    | none => rw [hnone hl]; rfl
    | some k =>
      simp only [get_destroyer, hl]
      by_cases hw : platform = "Windows" ∧
          (pyLower name = "shred" ∨ pyLower name = "wipe")
      · rw [if_pos hw, ewin, lwin]; rfl
      · rw [if_neg hw, hl]; rfl
  · intro hl hfp
    rw [hnone hl, hfp]
    rfl
  · intro hpl hsw
    have hl : tblLookup destroyerTable (pyLower name) =
        some (if pyLower name = "shred" then DKind.shred else DKind.wipe) := by
      rcases hsw with h | h <;> rw [h] <;> simp <;> decide
    have hw : platform = "Windows" ∧
        (pyLower name = "shred" ∨ pyLower name = "wipe") := ⟨hpl, hsw⟩
    simp only [get_destroyer, hl]
    rw [if_pos hw, ewin, lwin]
    rfl

/-! ## Filesystem model and the destroyer engine

The destroyers of `destroyers.py` over a model filesystem.  A directory tree
is a list of named entries; an entry is a regular file (its size), a symbolic
link (its target path, plus the resolved kind of the target — regular file of
a given size, directory, or dangling), or a subdirectory.  The destructive
operations are recorded as events: opening a path for writing (truncating
overwrite), unlinking a file or link, removing a directory.

Operating-system semantics baked into the model, as Python behaves:
`os.path.exists`/`os.path.isfile`/`os.path.isdir` follow symbolic links (a
dangling link "does not exist"); `open(path, 'wb')` follows a link and
truncates the target; `os.remove` on a link unlinks the link itself;
`os.rmdir` fails on a symlink and on a non-empty directory; `os.walk` with
the default `followlinks=False` lists a link to a directory among `dirs`
but does not descend into it, and lists links to files among `files`.
Per-path I/O failures (open/write/unlink errors) are an oracle `ioErr`. -/

inductive TargetKind where
  | tfile (size : Nat)
  | tdir
  | broken
deriving DecidableEq

mutual
inductive Node where
  | regular (size : Nat)
  | symlink (target : String) (tk : TargetKind)
  | directory (children : Entries)
inductive Entries where
  | nil
  | cons (name : String) (node : Node) (rest : Entries)
end

inductive Ev where
  | openWrite (p : String)
  | remove (p : String)
  | rmdir (p : String)
deriving DecidableEq

/-- `os.path.join(root, name)`. -/
def jp (root name : String) : String := root ++ "/" ++ name

/-- `FastDestroyer.destroy_file(filepath)`: missing paths and paths that do
not resolve to a regular file return `True` untouched; an empty file is just
unlinked; otherwise `passes` truncating overwrites of the resolved file, then
unlink of the path itself (for a link: the target is overwritten, the link
unlinked). `ioErr` is an open/write/unlink failure, caught as `False`. -/
def destroy_file (passes : Nat) (path : String) (node : Option Node)
    (ioErr : Bool) : Bool × List Ev :=
  match node with
  | none => (true, [])
  | some (Node.regular 0) =>
      if ioErr then (false, []) else (true, [Ev.remove path])
  | some (Node.regular (_ + 1)) =>
      if ioErr then (false, [])
      else (true, List.replicate passes (Ev.openWrite path) ++ [Ev.remove path])
  | some (Node.symlink _ (TargetKind.tfile 0)) =>
      if ioErr then (false, []) else (true, [Ev.remove path])
  | some (Node.symlink t (TargetKind.tfile (_ + 1))) =>
      if ioErr then (false, [])
      else (true, List.replicate passes (Ev.openWrite t) ++ [Ev.remove path])
  | some _ => (true, [])

/-- `os.path.isdir` over an entry (follows links). -/
def isDirEntry : Node → Bool
  | Node.directory _ => true
  | Node.symlink _ TargetKind.tdir => true
  | _ => false

/-- The files half of one `os.walk` triple: `destroy_file` on every entry
that is not classified as a directory. -/
def filePhase (passes : Nat) (ioErr : String → Bool) (root : String) :
    Entries → Bool × List Ev
  | Entries.nil => (true, [])
  | Entries.cons name child rest =>
      let here := if isDirEntry child then (true, [])
                  else destroy_file passes (jp root name) (some child)
                    (ioErr (jp root name))
      let more := filePhase passes ioErr root rest
      (here.1 && more.1, here.2 ++ more.2)

mutual
/-- Whether the walk leaves this entry removed: regular files and file links
are gone unless their `destroy_file` failed; directory links and dangling
links always remain (`os.rmdir` fails on a link, a dangling link is "not
there" to `destroy_file` and is skipped); a directory is gone when all its
entries are and its own `rmdir` did not fail. -/
def nodeRemoved (ioErr : String → Bool) (path : String) : Node → Bool
  | Node.regular _ => !ioErr path
  | Node.symlink _ (TargetKind.tfile _) => !ioErr path
  | Node.symlink _ TargetKind.tdir => false
  | Node.symlink _ TargetKind.broken => false
  | Node.directory cs => entriesRemoved ioErr path cs && !ioErr path

/-- `nodeRemoved` over a directory's entries. -/
def entriesRemoved (ioErr : String → Bool) (root : String) : Entries → Bool
  | Entries.nil => true
  | Entries.cons name child rest =>
      nodeRemoved ioErr (jp root name) child && entriesRemoved ioErr root rest
end

/-- One `os.rmdir` attempt of the dirs half of a walk triple: it succeeds on
an emptied real directory, fails on a symlink and on a directory with
anything left inside. -/
def rmdirStep (ioErr : String → Bool) (p : String) : Node → Bool × List Ev
  | Node.directory cs =>
      if nodeRemoved ioErr p (Node.directory cs)
      then (true, [Ev.rmdir p]) else (false, [])
  | Node.symlink _ TargetKind.tdir => (false, [])
  | _ => (true, [])

/-- The dirs half of one `os.walk` triple: `rmdirStep` on every entry
classified as a directory. -/
def rmdirPhase (ioErr : String → Bool) (root : String) :
    Entries → Bool × List Ev
  | Entries.nil => (true, [])
  | Entries.cons name child rest =>
      let here := rmdirStep ioErr (jp root name) child
      let more := rmdirPhase ioErr root rest
      (here.1 && more.1, here.2 ++ more.2)

mutual
/-- The walk triples contributed below one entry: a real subdirectory
contributes its own sub-walk followed by its files and dirs phases; every
other entry — in particular a symlink to a directory — contributes nothing
(`os.walk` with `followlinks=False` never descends through a link). -/
def nodeWalk (passes : Nat) (ioErr : String → Bool) (p : String) :
    Node → Bool × List Ev
  | Node.directory cs =>
      let s := subWalk passes ioErr p cs
      let f := filePhase passes ioErr p cs
      let r := rmdirPhase ioErr p cs
      (s.1 && f.1 && r.1, s.2 ++ f.2 ++ r.2)
  | _ => (true, [])

/-- The `os.walk(dirpath, topdown=False)` loop of `destroy_dir`, for the
triples strictly below `root`.  Order matches the walk: a subdirectory's
triples precede its parent's. -/
def subWalk (passes : Nat) (ioErr : String → Bool) (root : String) :
    Entries → Bool × List Ev
  | Entries.nil => (true, [])
  | Entries.cons name child rest =>
      let here := nodeWalk passes ioErr (jp root name) child
      let more := subWalk passes ioErr root rest
      (here.1 && more.1, here.2 ++ more.2)
end

/-- All `os.walk` triples of a directory: the sub-walk below it, then its
own files and dirs phases. -/
def dirTriples (passes : Nat) (ioErr : String → Bool) (root : String)
    (cs : Entries) : Bool × List Ev :=
  let s := subWalk passes ioErr root cs
  let f := filePhase passes ioErr root cs
  let r := rmdirPhase ioErr root cs
  (s.1 && f.1 && r.1, s.2 ++ f.2 ++ r.2)

/-- `BaseDestroyer.destroy_dir(dirpath)` with `FastDestroyer.destroy_file`:
the walk, then `os.rmdir` of the root itself. -/
def destroy_dir (passes : Nat) (ioErr : String → Bool) (dirpath : String)
    (cs : Entries) : Bool × List Ev :=
  let w := dirTriples passes ioErr dirpath cs
  let rootOk := nodeRemoved ioErr dirpath (Node.directory cs)
  (w.1 && rootOk, w.2 ++ if rootOk then [Ev.rmdir dirpath] else [])

mutual
/-- Every entry strictly below one entry (nonempty only for directories). -/
def nodeEntryList (p : String) : Node → List (String × Node)
  | Node.directory cs => entryList p cs
  | _ => []

/-- Every entry of the tree with its full path. -/
def entryList (root : String) : Entries → List (String × Node)
  | Entries.nil => []
  | Entries.cons name child rest =>
      (jp root name, child) ::
        (nodeEntryList (jp root name) child ++ entryList root rest)
end

/-- C10: `FastDestroyer.destroy_file` reports success for every path that
does not exist or does not resolve to a regular file; a failure arises
exactly from an open/write/unlink error on a path resolving to an existing
regular file. -/
theorem C10_destroy_file_success :
    ∀ (passes : Nat) (path : String) (node : Option Node) (ioErr : Bool),
      (destroy_file passes path node ioErr).1 =
        (!(match node with
           | some (Node.regular _) => true
           | some (Node.symlink _ (TargetKind.tfile _)) => true
           | _ => false) || !ioErr) := by
  intro passes path node ioErr
  match node with
  | none => rfl
  | some (Node.regular 0) => cases ioErr <;> rfl
  | some (Node.regular (s + 1)) => cases ioErr <;> rfl
  | some (Node.symlink t (TargetKind.tfile 0)) => cases ioErr <;> rfl
  | some (Node.symlink t (TargetKind.tfile (s + 1))) => cases ioErr <;> rfl
  | some (Node.symlink t TargetKind.tdir) => rfl
  | some (Node.symlink t TargetKind.broken) => rfl
  | some (Node.directory cs) => rfl

/-! ## Aggregation over a list of target paths

`BaseDestroyer.destroy_paths(paths)`.  `destroy_file`/`destroy_dir` are the
dynamically dispatched methods of the concrete destroyer, so they enter as
oracles from path to outcome; `kindOf` is the
`os.path.exists`/`isfile`/`isdir` classification of the path (`missing`
covers the falsy-path and non-existent cases, `other` the "neither file nor
directory" warning case). -/

inductive PathKind where
  | missing
  | file
  | dir
  | other
deriving DecidableEq

/-- The loop of `destroy_paths`: every path is visited; missing and `other`
paths only warn; a failed `destroy_file`/`destroy_dir` (or an exception,
already folded into the oracle's `false`) clears `overall_success`. -/
def destroy_paths (kindOf : String → PathKind)
    (dFile dDir : String → Bool × List Ev) : List String → Bool × List Ev
  | [] => (true, [])
  | p :: rest =>
      let step : Bool × List Ev :=
        if p = "" then (true, [])
        else match kindOf p with
          | PathKind.missing => (true, [])
          | PathKind.file => dFile p
          | PathKind.dir => dDir p
          | PathKind.other => (true, [])
      let more := destroy_paths kindOf dFile dDir rest
      (step.1 && more.1, step.2 ++ more.2)

/-- The per-path outcome `destroy_paths` records for one path. -/
def perPathOk (kindOf : String → PathKind)
    (dFile dDir : String → Bool × List Ev) (p : String) : Bool :=
  if p = "" then true
  else match kindOf p with
    | PathKind.missing => true
    | PathKind.file => (dFile p).1
    | PathKind.dir => (dDir p).1
    | PathKind.other => true

/-- C6: `destroy_paths` never short-circuits — appending one more path to
the list conjoins that path's outcome onto the previous aggregate, whatever
failures came before; the aggregate is success exactly when every path's
outcome is non-failing; missing paths are never a failure; the empty list
succeeds. -/
theorem C6_destroy_paths_aggregate :
    ∀ (kindOf : String → PathKind) (dFile dDir : String → Bool × List Ev),
      (∀ ps, (destroy_paths kindOf dFile dDir ps).1 =
          ps.all (perPathOk kindOf dFile dDir))
      ∧ ((destroy_paths kindOf dFile dDir []).1 = true)
      ∧ (∀ ps p, (destroy_paths kindOf dFile dDir (ps ++ [p])).1 =
          ((destroy_paths kindOf dFile dDir ps).1 &&
            perPathOk kindOf dFile dDir p))
      ∧ (∀ p, kindOf p = PathKind.missing →
          perPathOk kindOf dFile dDir p = true) := by
  intro kindOf dFile dDir
  have hall : ∀ ps, (destroy_paths kindOf dFile dDir ps).1 =
      ps.all (perPathOk kindOf dFile dDir) := by
    intro ps
    induction ps with
    | nil => rfl
    | cons p rest ih =>
      simp only [destroy_paths, List.all_cons, ih, perPathOk]
      by_cases hp : p = ""
      · simp [hp]
      · simp only [if_neg hp]
        cases kindOf p <;> simp
  refine ⟨hall, rfl, ?_, ?_⟩
  · intro ps p
    rw [hall, hall, List.all_append, List.all_cons, List.all_nil,
      Bool.and_true]
  · intro p hk
    unfold perPathOk
    by_cases hp : p = ""
    · simp [hp]
    · simp [hp, hk]

/-! ## Symbolic links under the walk

Provenance of the walk's events: every event is produced by an entry of the
tree (or is the root's own `rmdir`), and the event's path is accounted for:
a path is opened for writing only as a regular entry's own path or as the
target of a link to a regular file; only files and file links are unlinked;
only real directories (and the root) are `rmdir`ed — in particular a
directory link is never descended into, its target is never opened, and the
link itself is never removed. -/

/-- The entries of `l` an event can legitimately come from. -/
def ProvOK (l : List (String × Node)) : Ev → Prop
  | Ev.openWrite q => (∃ s, (q, Node.regular (s + 1)) ∈ l) ∨
      (∃ p s, (p, Node.symlink q (TargetKind.tfile (s + 1))) ∈ l)
  | Ev.remove q => (∃ s, (q, Node.regular s) ∈ l) ∨
      (∃ t s, (q, Node.symlink t (TargetKind.tfile s)) ∈ l)
  | Ev.rmdir q => ∃ cs, (q, Node.directory cs) ∈ l

theorem ProvOK_mono {l l' : List (String × Node)}
    (hsub : ∀ x ∈ l, x ∈ l') {ev : Ev} (h : ProvOK l ev) : ProvOK l' ev := by
  cases ev with
  | openWrite q =>
    simp only [ProvOK] at h ⊢
    rcases h with ⟨s, hs⟩ | ⟨p, s, hs⟩
    · exact Or.inl ⟨s, hsub _ hs⟩
    · exact Or.inr ⟨p, s, hsub _ hs⟩
  | remove q =>
    simp only [ProvOK] at h ⊢
    rcases h with ⟨s, hs⟩ | ⟨t, s, hs⟩
    · exact Or.inl ⟨s, hsub _ hs⟩
    · exact Or.inr ⟨t, s, hsub _ hs⟩
  | rmdir q =>
    simp only [ProvOK] at h ⊢
    rcases h with ⟨cs, hs⟩
    exact ⟨cs, hsub _ hs⟩

theorem mem_entryList_head (root name : String) (child : Node) (rest : Entries) :
    (jp root name, child) ∈ entryList root (Entries.cons name child rest) := by
  simp [entryList]

theorem mem_entryList_tail (root name : String) (child : Node) (rest : Entries)
    {x : String × Node} (h : x ∈ entryList root rest) :
    x ∈ entryList root (Entries.cons name child rest) := by
  simp only [entryList, List.mem_cons, List.mem_append]
  exact Or.inr (Or.inr h)

theorem mem_entryList_dir (root name : String) (cs rest : Entries)
    {x : String × Node} (h : x ∈ entryList (jp root name) cs) :
    x ∈ entryList root (Entries.cons name (Node.directory cs) rest) := by
  simp only [entryList, nodeEntryList, List.mem_cons, List.mem_append]
  exact Or.inr (Or.inl h)

theorem destroy_file_prov (passes : Nat) (path : String) (n : Node) (e : Bool) :
    ∀ ev ∈ (destroy_file passes path (some n) e).2, ProvOK [(path, n)] ev := by
  intro ev hev
  match n with
  | Node.regular 0 =>
    cases e with
    | true => simp [destroy_file] at hev
    | false =>
      simp only [destroy_file, if_neg Bool.false_ne_true, List.mem_singleton] at hev
      subst hev
      exact Or.inl ⟨0, by simp⟩
  | Node.regular (s + 1) =>
    cases e with
    | true => simp [destroy_file] at hev
    | false =>
      simp only [destroy_file, if_neg Bool.false_ne_true, List.mem_append,
        List.mem_replicate, List.mem_singleton] at hev
      rcases hev with ⟨-, hev⟩ | hev <;> subst hev
      · exact Or.inl ⟨s, by simp⟩
      · exact Or.inl ⟨s + 1, by simp⟩
  | Node.symlink t (TargetKind.tfile 0) =>
    cases e with
    | true => simp [destroy_file] at hev
    | false =>
      simp only [destroy_file, if_neg Bool.false_ne_true, List.mem_singleton] at hev
      subst hev
      exact Or.inr ⟨t, 0, by simp⟩
  | Node.symlink t (TargetKind.tfile (s + 1)) =>
    cases e with
    | true => simp [destroy_file] at hev
    | false =>
      simp only [destroy_file, if_neg Bool.false_ne_true, List.mem_append,
        List.mem_replicate, List.mem_singleton] at hev
      rcases hev with ⟨-, hev⟩ | hev <;> subst hev
      · exact Or.inr ⟨path, s, by simp⟩
      · exact Or.inr ⟨t, s + 1, by simp⟩
  | Node.symlink t TargetKind.tdir => simp [destroy_file] at hev
  | Node.symlink t TargetKind.broken => simp [destroy_file] at hev
  | Node.directory cs => simp [destroy_file] at hev

theorem filePhase_prov (passes : Nat) (ioErr : String → Bool) :
    ∀ (root : String) (cs : Entries) (ev : Ev),
      ev ∈ (filePhase passes ioErr root cs).2 → ProvOK (entryList root cs) ev
  | _, Entries.nil, _ => by
      intro h
      simp [filePhase] at h
  | root, Entries.cons name child rest, ev => by
      intro h
      simp only [filePhase] at h
      rcases List.mem_append.mp h with h1 | h2
      · by_cases hd : isDirEntry child = true
        · rw [if_pos hd] at h1
          simp at h1
        · rw [if_neg hd] at h1
          refine ProvOK_mono ?_
            (destroy_file_prov passes (jp root name) child (ioErr (jp root name)) ev h1)
          intro x hx
          rw [List.mem_singleton] at hx
          subst hx
          exact mem_entryList_head root name child rest
      · exact ProvOK_mono (fun x hx => mem_entryList_tail root name child rest hx)
          (filePhase_prov passes ioErr root rest ev h2)

theorem rmdirPhase_prov (ioErr : String → Bool) :
    ∀ (root : String) (cs : Entries) (ev : Ev),
      ev ∈ (rmdirPhase ioErr root cs).2 → ProvOK (entryList root cs) ev
  | _, Entries.nil, _ => by
      intro h
      simp [rmdirPhase] at h
  | root, Entries.cons name child rest, ev => by
      intro h
      simp only [rmdirPhase] at h
      rcases List.mem_append.mp h with h1 | h2
      · cases child with
        | directory cs =>
          simp only [rmdirStep] at h1
          by_cases hr : nodeRemoved ioErr (jp root name) (Node.directory cs) = true
          · rw [if_pos hr] at h1
            rw [List.mem_singleton] at h1
            subst h1
            exact ⟨cs, mem_entryList_head root name (Node.directory cs) rest⟩
          · rw [if_neg hr] at h1
            simp at h1
        | regular s => simp [rmdirStep] at h1
        | symlink t tk => cases tk <;> simp [rmdirStep] at h1
      · exact ProvOK_mono (fun x hx => mem_entryList_tail root name child rest hx)
          (rmdirPhase_prov ioErr root rest ev h2)

theorem subWalk_prov (passes : Nat) (ioErr : String → Bool) :
    ∀ (root : String) (cs : Entries) (ev : Ev),
      ev ∈ (subWalk passes ioErr root cs).2 → ProvOK (entryList root cs) ev
  | _, Entries.nil, _ => by
      intro h
      simp [subWalk] at h
  | root, Entries.cons name (Node.directory cs') rest, ev => by
      intro h
      simp only [subWalk, nodeWalk] at h
      rcases List.mem_append.mp h with h1 | h2
      · rcases List.mem_append.mp h1 with h3 | h4
        · rcases List.mem_append.mp h3 with h5 | h6
          · exact ProvOK_mono (fun x hx => mem_entryList_dir root name cs' rest hx)
              (subWalk_prov passes ioErr (jp root name) cs' ev h5)
          · exact ProvOK_mono (fun x hx => mem_entryList_dir root name cs' rest hx)
              (filePhase_prov passes ioErr (jp root name) cs' ev h6)
        · exact ProvOK_mono (fun x hx => mem_entryList_dir root name cs' rest hx)
            (rmdirPhase_prov ioErr (jp root name) cs' ev h4)
      · exact ProvOK_mono (fun x hx =>
            mem_entryList_tail root name (Node.directory cs') rest hx)
          (subWalk_prov passes ioErr root rest ev h2)
  | root, Entries.cons name (Node.regular s) rest, ev => by
      intro h
      simp only [subWalk, nodeWalk] at h
      rcases List.mem_append.mp h with h1 | h2
      · simp at h1
      · exact ProvOK_mono (fun x hx =>
            mem_entryList_tail root name (Node.regular s) rest hx)
          (subWalk_prov passes ioErr root rest ev h2)
  | root, Entries.cons name (Node.symlink t tk) rest, ev => by
      intro h
      simp only [subWalk, nodeWalk] at h
      rcases List.mem_append.mp h with h1 | h2
      · simp at h1
      · exact ProvOK_mono (fun x hx =>
            mem_entryList_tail root name (Node.symlink t tk) rest hx)
          (subWalk_prov passes ioErr root rest ev h2)

theorem destroy_dir_prov (passes : Nat) (ioErr : String → Bool)
    (root : String) (cs : Entries) (ev : Ev)
    (h : ev ∈ (destroy_dir passes ioErr root cs).2) :
    ev = Ev.rmdir root ∨ ProvOK (entryList root cs) ev := by
  simp only [destroy_dir, dirTriples] at h
  rcases List.mem_append.mp h with h1 | h2
  · rcases List.mem_append.mp h1 with h3 | h4
    · rcases List.mem_append.mp h3 with h5 | h6
      · exact Or.inr (subWalk_prov passes ioErr root cs ev h5)
      · exact Or.inr (filePhase_prov passes ioErr root cs ev h6)
    · exact Or.inr (rmdirPhase_prov ioErr root cs ev h4)
  · by_cases hr : nodeRemoved ioErr root (Node.directory cs) = true
    · rw [if_pos hr, List.mem_singleton] at h2
      exact Or.inl h2
    · rw [if_neg hr] at h2
      simp at h2

/-- The oracle of an error-free run. -/
def noFail : String → Bool := fun _ => false

theorem mem_subWalk_tail (passes : Nat) (ioErr : String → Bool)
    (root name : String) (child : Node) (rest : Entries) {ev : Ev}
    (h : ev ∈ (subWalk passes ioErr root rest).2) :
    ev ∈ (subWalk passes ioErr root (Entries.cons name child rest)).2 := by
  simp only [subWalk]
  exact List.mem_append.mpr (Or.inr h)

theorem mem_filePhase_tail (passes : Nat) (ioErr : String → Bool)
    (root name : String) (child : Node) (rest : Entries) {ev : Ev}
    (h : ev ∈ (filePhase passes ioErr root rest).2) :
    ev ∈ (filePhase passes ioErr root (Entries.cons name child rest)).2 := by
  simp only [filePhase]
  exact List.mem_append.mpr (Or.inr h)

theorem mem_rmdirPhase_tail (ioErr : String → Bool)
    (root name : String) (child : Node) (rest : Entries) {ev : Ev}
    (h : ev ∈ (rmdirPhase ioErr root rest).2) :
    ev ∈ (rmdirPhase ioErr root (Entries.cons name child rest)).2 := by
  simp only [rmdirPhase]
  exact List.mem_append.mpr (Or.inr h)

theorem mem_dirTriples_tail (passes : Nat) (ioErr : String → Bool)
    (root name : String) (child : Node) (rest : Entries) {ev : Ev}
    (h : ev ∈ (dirTriples passes ioErr root rest).2) :
    ev ∈ (dirTriples passes ioErr root (Entries.cons name child rest)).2 := by
  simp only [dirTriples] at h ⊢
  rcases List.mem_append.mp h with h1 | h2
  · rcases List.mem_append.mp h1 with h3 | h4
    · exact List.mem_append.mpr (Or.inl (List.mem_append.mpr (Or.inl
        (mem_subWalk_tail passes ioErr root name child rest h3))))
    · exact List.mem_append.mpr (Or.inl (List.mem_append.mpr (Or.inr
        (mem_filePhase_tail passes ioErr root name child rest h4))))
  · exact List.mem_append.mpr (Or.inr
      (mem_rmdirPhase_tail ioErr root name child rest h2))

theorem symlink_target_overwritten (passes : Nat) :
    ∀ (root : String) (cs : Entries) (p t : String) (s : Nat),
      (p, Node.symlink t (TargetKind.tfile (s + 1))) ∈ entryList root cs →
      Ev.openWrite t ∈ (dirTriples (passes + 1) noFail root cs).2
  | _, Entries.nil, _, _, _ => by
      intro h
      simp [entryList] at h
  | root, Entries.cons name child rest, p, t, s => by
      intro h
      simp only [entryList, List.mem_cons, List.mem_append] at h
      rcases h with h0 | h1 | h2
      · have hchild : child = Node.symlink t (TargetKind.tfile (s + 1)) :=
          (Prod.mk.injEq _ _ _ _ |>.mp h0.symm).2
        subst hchild
        have hdf : Ev.openWrite t ∈ (destroy_file (passes + 1) (jp root name)
            (some (Node.symlink t (TargetKind.tfile (s + 1))))
            (noFail (jp root name))).2 := by
          simp [destroy_file, noFail, List.mem_append, List.mem_replicate]
        have hf : Ev.openWrite t ∈
            (filePhase (passes + 1) noFail root
              (Entries.cons name (Node.symlink t (TargetKind.tfile (s + 1))) rest)).2 := by
          simp only [filePhase]
          refine List.mem_append.mpr (Or.inl ?_)
          rw [if_neg]
          · exact hdf
          · simp [isDirEntry]
        simp only [dirTriples]
        exact List.mem_append.mpr (Or.inl (List.mem_append.mpr (Or.inr hf)))
      · cases child with
        | directory cs' =>
          simp only [nodeEntryList] at h1
          have hsub := symlink_target_overwritten passes (jp root name) cs' p t s h1
          have hw : Ev.openWrite t ∈ (subWalk (passes + 1) noFail root
              (Entries.cons name (Node.directory cs') rest)).2 := by
            simp only [subWalk, nodeWalk, dirTriples] at hsub ⊢
            exact List.mem_append.mpr (Or.inl hsub)
          simp only [dirTriples]
          exact List.mem_append.mpr (Or.inl (List.mem_append.mpr (Or.inl hw)))
        | regular sz => simp [nodeEntryList] at h1
        | symlink t' tk => simp [nodeEntryList] at h1
      · exact mem_dirTriples_tail (passes + 1) noFail root name child rest
          (symlink_target_overwritten passes root rest p t s h2)

/-- C5 amended: (i) every event of `destroy_dir` is the root's own `rmdir`
or is accounted to an entry of the tree — a path is opened for writing only
as a regular file's own path or as the target of a link to a regular file,
unlink events only hit files and file links, and `rmdir` events only real
directories — so a directory link is never traversed, its target never
opened, and the link itself never removed (its `rmdir` fails instead, (iii));
but (ii) for every link to a non-empty regular file in the tree, an
error-free run opens the link's target for writing (the pointed-to file is
overwritten before the link is unlinked), contradicting the claim as
stated. -/
theorem C5_symlink_handling :
    (∀ (passes : Nat) (ioErr : String → Bool) (root : String) (cs : Entries)
        (ev : Ev), ev ∈ (destroy_dir passes ioErr root cs).2 →
          ev = Ev.rmdir root ∨ ProvOK (entryList root cs) ev)
    ∧ (∀ (passes : Nat) (root : String) (cs : Entries) (p t : String) (s : Nat),
        (p, Node.symlink t (TargetKind.tfile (s + 1))) ∈ entryList root cs →
          Ev.openWrite t ∈ (destroy_dir (passes + 1) noFail root cs).2)
    ∧ (∀ (passes : Nat) (ioErr : String → Bool) (root name t : String)
        (rest : Entries),
        subWalk passes ioErr root
            (Entries.cons name (Node.symlink t TargetKind.tdir) rest)
          = subWalk passes ioErr root rest
        ∧ (rmdirPhase ioErr root
            (Entries.cons name (Node.symlink t TargetKind.tdir) rest)).1 = false
        ∧ (rmdirPhase ioErr root
            (Entries.cons name (Node.symlink t TargetKind.tdir) rest)).2
          = (rmdirPhase ioErr root rest).2) := by
  refine ⟨destroy_dir_prov, ?_, ?_⟩
  · intro passes root cs p t s h
    have := symlink_target_overwritten passes root cs p t s h
    simp only [destroy_dir]
    exact List.mem_append.mpr (Or.inl this)
  · intro passes ioErr root name t rest
    refine ⟨?_, ?_, ?_⟩
    · simp [subWalk, nodeWalk]
    · simp [rmdirPhase, rmdirStep]
    · simp [rmdirPhase, rmdirStep]

/-- C5 counterexample tree: a target directory containing one symbolic link
`a` to a 4-byte regular file `/secret` outside the subtree. -/
def cexEntries : Entries :=
  Entries.cons "a" (Node.symlink "/secret" (TargetKind.tfile 4)) Entries.nil

/-- C5 counterexample: destroying the directory opens the link's target
`/secret` for writing (overwriting the pointed-to file), while the claim
says the file a link points to is never opened or overwritten; the link
itself, `/tgt/a`, is what gets unlinked. -/
theorem C5_counterexample :
    Ev.openWrite "/secret" ∈ (destroy_dir 3 noFail "/tgt" cexEntries).2
    ∧ Ev.remove "/tgt/a" ∈ (destroy_dir 3 noFail "/tgt" cexEntries).2
    ∧ Ev.remove "/secret" ∉ (destroy_dir 3 noFail "/tgt" cexEntries).2 := by
  refine ⟨by decide, by decide, by decide⟩

/-! ## The connection handler and the self-destruct sequence

`PalioxisServer.handle_connection` / `handle_self_destruct` of
`palioxis_server.py`, as an ordered event trace.  The stages before the
destroy check (peer-certificate extraction, request parsing, DPoP
verification) enter as the boolean `dpopOk` and the parsed `method`,
`path` and `body`; `key` is `settings['key']`.  Server events: a response
written and flushed by `conn.sendall` (its status code), closing the
connection, instantiating the destroyer (`get_destroyer`), the filesystem
events of the destroyer run, the TrueCrypt hook, and the final
`shutdown -h now`.  The destroyer run is modelled with the fast destroyer
(the default module); the other kinds differ only inside a single file's
erasure.  The target registry is an association list from path to what is
on disk there (`none`: nothing). -/

inductive SEv where
  | send (code : Nat)
  | closeConn
  | instantiateDestroyer
  | fsEv (e : Ev)
  | truecryptHook
  | shutdown
deriving DecidableEq

/-- What the filesystem holds at a registered target path. -/
def fsLookup : List (String × Option Node) → String → Option Node
  | [], _ => none
  | (q, n) :: rest, p => if p = q then n else fsLookup rest p

/-- The `os.path.exists`/`isfile`/`isdir` classification of a target path
(all three follow links; a dangling link "does not exist"). -/
def pathKindOf : Option Node → PathKind
  | none => PathKind.missing
  | some (Node.regular _) => PathKind.file
  | some (Node.symlink _ (TargetKind.tfile _)) => PathKind.file
  | some (Node.symlink _ TargetKind.broken) => PathKind.missing
  | some (Node.symlink _ TargetKind.tdir) => PathKind.dir
  | some (Node.directory _) => PathKind.dir

/-- The subtree `destroy_dir` walks at a target path (the target subtree
behind a directory symlink is not modelled; C4 is insensitive to it). -/
def dirEntriesOf : Option Node → Entries
  | some (Node.directory cs) => cs
  | _ => Entries.nil

/-- `destroyer.destroy_paths(self.target_directories)` over the registry. -/
def destroy_paths_run (passes : Nat) (ioErr : String → Bool)
    (fs : List (String × Option Node)) : Bool × List Ev :=
  destroy_paths (fun p => pathKindOf (fsLookup fs p))
    (fun p => destroy_file passes p (fsLookup fs p) (ioErr p))
    (fun p => destroy_dir passes ioErr p (dirEntriesOf (fsLookup fs p)))
    (fs.map Prod.fst)

/-- `PalioxisServer.handle_self_destruct`: create the destroyer, destroy
the targets, run the TrueCrypt hook, shut the host down. -/
def handle_self_destruct (passes : Nat) (ioErr : String → Bool)
    (fs : List (String × Option Node)) : List SEv :=
  SEv.instantiateDestroyer ::
    ((destroy_paths_run passes ioErr fs).2.map SEv.fsEv ++
      [SEv.truecryptHook, SEv.shutdown])

/-- The destroy-request part of `PalioxisServer.handle_connection`: after a
failed DPoP verification a `401`; for `POST /destroy` with
`body.strip() == key` the `200` acknowledgement is sent, the connection
closed, and the self-destruct sequence runs; with a wrong key a `403`;
anything else a `405`. -/
def handle_connection (dpopOk : Bool) (method path body key : String)
    (passes : Nat) (ioErr : String → Bool)
    (fs : List (String × Option Node)) : Nat × List SEv :=
  if !dpopOk then (401, [SEv.send 401])
  else if method = "POST" ∧ path = "/destroy" then
    if pyStrip body = key then
      (200, SEv.send 200 :: SEv.closeConn :: handle_self_destruct passes ioErr fs)
    else (403, [SEv.send 403])
  else (405, [SEv.send 405])

/-- C3 amended: on an authenticated request, the destroyer is invoked
exactly when the request is `POST /destroy` and the *whitespace-stripped*
body equals the configured key (the code compares `body.strip() == key`,
not the raw bytes); when the stripped body differs the response is
`403 Forbidden` and no destroy action happens. -/
theorem C3_destroy_key_gate :
    ∀ (dpopOk : Bool) (method path body key : String) (passes : Nat)
      (ioErr : String → Bool) (fs : List (String × Option Node)),
      ((SEv.instantiateDestroyer ∈
          (handle_connection dpopOk method path body key passes ioErr fs).2) ↔
        (dpopOk = true ∧ method = "POST" ∧ path = "/destroy" ∧
          pyStrip body = key))
      ∧ (dpopOk = true → method = "POST" → path = "/destroy" →
          pyStrip body ≠ key →
          handle_connection dpopOk method path body key passes ioErr fs
            = (403, [SEv.send 403])) := by
  intro dpopOk method path body key passes ioErr fs
  constructor
  · cases dpopOk with
    | false =>
      refine iff_of_false ?_ ?_
      · simp [handle_connection]
      · rintro ⟨h, -⟩
        exact Bool.false_ne_true h
    | true =>
      by_cases hmp : method = "POST" ∧ path = "/destroy"
      · by_cases hk : pyStrip body = key
        · refine iff_of_true ?_ ⟨rfl, hmp.1, hmp.2, hk⟩
          simp [handle_connection, hmp, hk, handle_self_destruct]
        · refine iff_of_false ?_ ?_
          · simp [handle_connection, hmp, hk]
          · rintro ⟨-, -, -, h⟩
            exact hk h
      · refine iff_of_false ?_ ?_
        · simp only [handle_connection, Bool.not_true, Bool.false_eq_true,
            if_false, if_neg hmp]
          simp
        · rintro ⟨-, h1, h2, -⟩
          exact hmp ⟨h1, h2⟩
  · intro hd hm hp hk
    subst hd; subst hm; subst hp
    have hmp : ("POST" : String) = "POST" ∧ ("/destroy" : String) = "/destroy" :=
      ⟨rfl, rfl⟩
    simp [handle_connection, hmp, hk]

/-- C3 counterexample: a body of `"OHSNAP\n"` is not byte-equal to the key
`"OHSNAP"`, yet the server answers `200` and invokes the destroyer, because
the comparison strips the body first. -/
theorem C3_counterexample :
    (handle_connection true "POST" "/destroy" "OHSNAP\n" "OHSNAP" 3 noFail []).1
      = 200
    ∧ SEv.instantiateDestroyer ∈
        (handle_connection true "POST" "/destroy" "OHSNAP\n" "OHSNAP" 3 noFail []).2
    ∧ ("OHSNAP\n" : String) ≠ "OHSNAP" := by
  refine ⟨by decide, by decide, by decide⟩

/-- C4: on every successful trigger the `200 OK` acknowledgement is the
first event of the connection's trace — it is written and flushed before
the destroyer is instantiated and before any file event — and the host
shutdown is the last event, occurring exactly once, after the whole
destroyer run. -/
theorem C4_ack_before_destroy :
    ∀ (body key : String) (passes : Nat) (ioErr : String → Bool)
      (fs : List (String × Option Node)),
      pyStrip body = key →
      ((handle_connection true "POST" "/destroy" body key passes ioErr fs).2.head?
          = some (SEv.send 200))
      ∧ ((handle_connection true "POST" "/destroy" body key passes ioErr fs).2.getLast?
          = some SEv.shutdown)
      ∧ ((handle_connection true "POST" "/destroy" body key passes ioErr fs).2.count
          SEv.shutdown = 1)
      ∧ SEv.instantiateDestroyer ∈
          (handle_connection true "POST" "/destroy" body key passes ioErr fs).2 := by
  intro body key passes ioErr fs hkey
  have htr : (handle_connection true "POST" "/destroy" body key passes ioErr fs).2
      = SEv.send 200 :: SEv.closeConn :: SEv.instantiateDestroyer ::
        ((destroy_paths_run passes ioErr fs).2.map SEv.fsEv ++
          [SEv.truecryptHook, SEv.shutdown]) := by
    simp [handle_connection, handle_self_destruct, hkey]
  rw [htr]
  refine ⟨rfl, ?_, ?_, by simp⟩
  · have hshape : SEv.send 200 :: SEv.closeConn :: SEv.instantiateDestroyer ::
        ((destroy_paths_run passes ioErr fs).2.map SEv.fsEv ++
          [SEv.truecryptHook, SEv.shutdown])
        = (SEv.send 200 :: SEv.closeConn :: SEv.instantiateDestroyer ::
            ((destroy_paths_run passes ioErr fs).2.map SEv.fsEv ++
              [SEv.truecryptHook])) ++ [SEv.shutdown] := by
      simp
    rw [hshape, List.getLast?_concat]
  · have hmap : List.count SEv.shutdown
        ((destroy_paths_run passes ioErr fs).2.map SEv.fsEv) = 0 := by
      rw [List.count_eq_zero]
      intro hmem
      simp [List.mem_map] at hmem
    simp [List.count_cons, List.count_append, hmap]

theorem C4_ack_before_destroy_witness :
    pyStrip "OHSNAP" = "OHSNAP"
    ∧ (((handle_connection true "POST" "/destroy" "OHSNAP" "OHSNAP" 3 noFail []).2.head?
          = some (SEv.send 200))
      ∧ ((handle_connection true "POST" "/destroy" "OHSNAP" "OHSNAP" 3 noFail []).2.getLast?
          = some SEv.shutdown)
      ∧ ((handle_connection true "POST" "/destroy" "OHSNAP" "OHSNAP" 3 noFail []).2.count
          SEv.shutdown = 1)
      ∧ SEv.instantiateDestroyer ∈
          (handle_connection true "POST" "/destroy" "OHSNAP" "OHSNAP" 3 noFail []).2) :=
  ⟨by decide, C4_ack_before_destroy "OHSNAP" "OHSNAP" 3 noFail [] (by decide)⟩

/-! ## The fleet dispatcher

`PalioxisClient.send_signals_from_file` of `palioxis_client.py`.  The file
enters as its list of raw lines; `send` is the outcome of `send_signal`
(which catches every connection error internally and returns a flag).
Per-node human-readable messages are not modelled.  The loop mirrors the
code, including its exception structure: a line with at least three fields
whose port is not `int()`-parseable raises `ValueError`; the `except`
handler then evaluates `int(parts[1])` again while building the failure
record, raises again, and the outer handler returns the results collected
so far with `"success": False` — aborting the remaining entries. -/

/-- Whether a stripped line begins with the comment mark. -/
def startsWithHash (s : String) : Bool :=
  match s.data with
  | '#' :: _ => true
  | _ => false

/-- `[line.strip() for line in f if line.strip() and not
line.strip().startswith('#')]`. -/
def cleanLines (raw : List String) : List String :=
  (raw.map pyStrip).filter (fun l => !(l == "") && !(startsWithHash l))

/-- Python `str.split()`: split on whitespace runs, no empty fields. -/
def pyWordsGo : List Char → List Char → List String
  | [], acc => if acc.isEmpty then [] else [⟨acc.reverse⟩]
  | c :: rest, acc =>
      if c.isWhitespace then
        if acc.isEmpty then pyWordsGo rest []
        else ⟨acc.reverse⟩ :: pyWordsGo rest []
      else pyWordsGo rest (c :: acc)

/-- Python `str.split()` of a line into fields. -/
def pyWords (s : String) : List String := pyWordsGo s.data []

/-- One per-node record of the dispatcher (host, port, accepted). -/
structure NodeResult where
  host : String
  port : Int
  success : Bool
deriving DecidableEq

/-- The dispatcher's aggregate result. -/
structure FleetResult where
  success : Bool
  results : List NodeResult
deriving DecidableEq

/-- The entry loop of `send_signals_from_file`: fewer than three fields is
a recorded per-node failure and the loop continues; an unparseable port
aborts with the results so far and overall failure; otherwise the signal is
sent and counted.  At the end, success means at least one acceptance. -/
def goSend (send : String → Int → String → Bool) :
    List String → List NodeResult → Nat → Nat → FleetResult
  | [], acc, s, _ => ⟨decide (0 < s), acc.reverse⟩
  | line :: rest, acc, s, f =>
      let parts := pyWords line
      if parts.length < 3 then
        goSend send rest (⟨"unknown", 0, false⟩ :: acc) s (f + 1)
      else
        match pyParseInt (parts.getD 1 "") with
        | none => ⟨false, acc.reverse⟩
        | some port =>
            let ok := send (parts.getD 0 "") port (parts.getD 2 "")
            goSend send rest (⟨parts.getD 0 "", port, ok⟩ :: acc)
              (if ok then s + 1 else s) (if ok then f else f + 1)

/-- `send_signals_from_file`: clean the lines, fail outright when nothing
remains, else run the loop. -/
def send_signals_from_file (send : String → Int → String → Bool)
    (raw : List String) : FleetResult :=
  let lines := cleanLines raw
  if lines.isEmpty then ⟨false, []⟩ else goSend send lines [] 0 0

/-- Whether one cleaned line's node accepts the signal. -/
def entryAccepted (send : String → Int → String → Bool) (line : String) :
    Bool :=
  if (pyWords line).length < 3 then false
  else
    match pyParseInt ((pyWords line).getD 1 "") with
    | none => false
    | some port =>
        send ((pyWords line).getD 0 "") port ((pyWords line).getD 2 "")

/-- A line with at least three fields and an unparseable port — the shape
that aborts the run. -/
def badPortLine (line : String) : Bool :=
  decide (3 ≤ (pyWords line).length) &&
    (pyParseInt ((pyWords line).getD 1 "")).isNone

/-- The number of accepting nodes among the lines. -/
def acceptCount (send : String → Int → String → Bool) : List String → Nat
  | [] => 0
  | line :: rest =>
      (if entryAccepted send line then 1 else 0) + acceptCount send rest

theorem goSend_eq (send : String → Int → String → Bool) :
    ∀ (lines : List String) (acc : List NodeResult) (s f : Nat),
      lines.all (fun l => !badPortLine l) = true →
      (goSend send lines acc s f).success =
        decide (0 < s + acceptCount send lines)
  | [], acc, s, f => fun _ => by
      simp only [goSend, acceptCount]
      rw [decide_eq_decide]
      omega
  | line :: rest, acc, s, f => fun hall => by
      rw [List.all_cons, Bool.and_eq_true] at hall
      obtain ⟨ha, h2⟩ := hall
      have h1 : badPortLine line = false := by simpa using ha
      simp only [goSend]
      by_cases hlen : (pyWords line).length < 3
      · rw [if_pos hlen, goSend_eq send rest _ s (f + 1) h2]
        have hacc : entryAccepted send line = false := by
          simp [entryAccepted, hlen]
        simp [acceptCount, hacc]
      · rw [if_neg hlen]
        have h3 : 3 ≤ (pyWords line).length := Nat.le_of_not_lt hlen
        have hsome : pyParseInt ((pyWords line).getD 1 "") ≠ none := by
          intro hn
          rw [badPortLine, hn] at h1
          simp [h3] at h1
        obtain ⟨port, hport⟩ := Option.ne_none_iff_exists'.mp hsome
        rw [hport]
        dsimp only
        by_cases hok : send ((pyWords line).getD 0 "") port
            ((pyWords line).getD 2 "") = true
        · have hacc : entryAccepted send line = true := by
            unfold entryAccepted
            rw [if_neg hlen, hport]
            exact hok
          rw [hok]
          simp only [if_true]
          rw [goSend_eq send rest _ (s + 1) f h2]
          simp only [acceptCount, hacc, if_true]
          rw [decide_eq_decide]
          omega
        · rw [Bool.not_eq_true] at hok
          have hacc : entryAccepted send line = false := by
            unfold entryAccepted
            rw [if_neg hlen, hport]
            exact hok
          rw [hok]
          simp only [Bool.false_eq_true, if_false]
          rw [goSend_eq send rest _ s (f + 1) h2]
          simp only [acceptCount, hacc, Bool.false_eq_true, if_false]
          rw [decide_eq_decide]
          omega

theorem goSend_abort (send : String → Int → String → Bool) :
    ∀ (lines : List String) (acc : List NodeResult) (s f : Nat),
      lines.any badPortLine = true →
      (goSend send lines acc s f).success = false
  | [], _, _, _ => by
      intro h
      simp at h
  | line :: rest, acc, s, f => by
      intro h
      rw [List.any_cons, Bool.or_eq_true] at h
      simp only [goSend]
      by_cases hlen : (pyWords line).length < 3
      · rw [if_pos hlen]
        rcases h with h | h
        · exfalso
          have hge : ¬ (3 ≤ (pyWords line).length) := by omega
          rw [badPortLine] at h
          simp [hge] at h
        · exact goSend_abort send rest _ s (f + 1) h
      · rw [if_neg hlen]
        cases hp : pyParseInt ((pyWords line).getD 1 "") with
        | none => rfl
        | some port =>
          dsimp only
          rcases h with h | h
          · exfalso
            rw [badPortLine, hp] at h
            simp at h
          · exact goSend_abort send rest _ _ _ h

theorem any_iff_acceptCount (send : String → Int → String → Bool) :
    ∀ lines : List String,
      lines.any (entryAccepted send) = decide (0 < acceptCount send lines)
  | [] => by simp [acceptCount]
  | line :: rest => by
      rw [List.any_cons, any_iff_acceptCount send rest]
      by_cases h : entryAccepted send line = true
      · have hpos : 0 < (if entryAccepted send line then 1 else 0) +
            acceptCount send rest := by
          rw [h]
          simp
        simp [h, acceptCount, hpos]
      · rw [Bool.not_eq_true] at h
        simp [h, acceptCount]

/-- C8 amended: (i) provided no cleaned line has three or more fields with
an `int()`-unparseable port, the run reports overall success exactly when
at least one node accepted the signal (entries with fewer than three fields
only add a per-node failure and do not stop the iteration); (ii) if such a
bad-port line is present, the run always reports failure — the `ValueError`
re-raised inside the `except` handler aborts the remaining entries — even
when an earlier node accepted; (iii) lines that strip to empty or start
with `#` are ignored. -/
theorem C8_fleet_success :
    ∀ (send : String → Int → String → Bool) (raw : List String),
      ((cleanLines raw).all (fun l => !badPortLine l) = true →
        ((send_signals_from_file send raw).success = true ↔
          (cleanLines raw).any (entryAccepted send) = true))
      ∧ ((cleanLines raw).any badPortLine = true →
        (send_signals_from_file send raw).success = false)
      ∧ (∀ (l : String) (raw2 : List String),
          (pyStrip l = "" ∨ startsWithHash (pyStrip l) = true) →
          send_signals_from_file send (l :: raw2)
            = send_signals_from_file send raw2) := by
  intro send raw
  refine ⟨?_, ?_, ?_⟩
  · intro hall
    simp only [send_signals_from_file]
    by_cases he : (cleanLines raw).isEmpty = true
    · rw [if_pos he]
      have hnil : cleanLines raw = [] := by
        cases hc : cleanLines raw with
        | nil => rfl
        | cons a l => rw [hc] at he; simp at he
      rw [hnil]
      simp
    · rw [if_neg he, goSend_eq send _ [] 0 0 hall, any_iff_acceptCount,
        Nat.zero_add]
  · intro hany
    simp only [send_signals_from_file]
    by_cases he : (cleanLines raw).isEmpty = true
    · rw [if_pos he]
    · rw [if_neg he]
      exact goSend_abort send _ [] 0 0 hany
  · intro l raw2 hl
    have hcl : cleanLines (l :: raw2) = cleanLines raw2 := by
      simp only [cleanLines, List.map_cons, List.filter_cons]
      rcases hl with h | h
      · rw [h]
        simp
      · rw [h]
        simp
    simp only [send_signals_from_file, hcl]

/-- C8 counterexample node list: the first entry's node accepts; the second
entry has three fields but a non-numeric port. -/
def cexSend : String → Int → String → Bool := fun _ _ _ => true

/-- C8 counterexample: one node accepted (its recorded result is a
success), yet the run reports overall failure, because the malformed-port
entry aborts the loop through the exception handler; the claim's "success
iff at least one node accepted" fails. -/
theorem C8_counterexample :
    (send_signals_from_file cexSend ["a 1 k", "b x k"]).success = false
    ∧ (send_signals_from_file cexSend ["a 1 k", "b x k"]).results.any
        (fun r => r.success) = true := by
  refine ⟨by decide, by decide⟩
